import Mathlib

/-!
# Verification of the Scholar-Athen paragraph-to-citation pipeline

Shallow embedding of the pipeline components of the Scholar-Athen repository:
citation formatting (`CitationFormatter.py`), paragraph cleaning (`Cleaner.py`,
`clean_paragraph_spacy`), LLM keyword/summary extraction and keyword ranking
(`ver4_extract_key_ele.py`, `LLMClient.py`, `pipeline.py`), arXiv query building
(`QueryAPI.py`), semantic ranking (`SemanticRanker.py`) and the orchestrators
(`pipeline_run` in `ver5_Main_webUI_error_msg` and in `Doc-Scraper/webUI`).

External collaborators (network, spaCy sentence segmentation, the sentence
embedding model, numpy's floating-point square root, the wall clock) are
modelled as explicit function parameters; Python exceptions are modelled with
`Except PyErr`.  Machine floats are idealised as `ℚ`.
-/

/-- Python exception kinds raised by the embedded code. -/
inductive PyErr where
  | indexError
  | keyError
  | typeError
  | runtimeError
deriving DecidableEq, Repr

/-! ## Python string primitives -/

/-- Accumulator loop for Python `str.split()` (split on whitespace runs,
dropping empty tokens).  `acc` holds the current token reversed. -/
def splitWsAux : List Char → List Char → List (List Char)
  | [], acc => if acc.isEmpty then [] else [acc.reverse]
  | c :: cs, acc =>
    if c.isWhitespace then
      if acc.isEmpty then splitWsAux cs [] else acc.reverse :: splitWsAux cs []
    else splitWsAux cs (c :: acc)

/-- Python `str.split()` on a character list. -/
def splitWsChars (l : List Char) : List (List Char) := splitWsAux l []

/-- Python `s.split()` : whitespace-separated tokens of a string. -/
def pySplitWs (s : String) : List String := (splitWsChars s.toList).map String.mk

/-- `len(s.split())`: the number of whitespace-separated words of `s`. -/
def wordCount (s : String) : Nat := (splitWsChars s.toList).length

/-- `sep.join(tokens)` on character lists. -/
def joinSep (sep : Char) : List (List Char) → List Char
  | [] => []
  | [t] => t
  | t :: ts => t ++ sep :: joinSep sep ts

/-- Scanner for `re.sub(r'<.*?>', '', text)`: after a `<`, find the rest of the
input past the next `>`, failing if a newline (which `.` does not match)
intervenes. -/
def findGt : List Char → Option (List Char)
  | [] => none
  | c :: cs => if c = '>' then some cs else if c = '\n' then none else findGt cs

theorem findGt_len : ∀ (l r : List Char), findGt l = some r → r.length ≤ l.length := by
  intro l
  induction l with
  | nil => intro r h; simp [findGt] at h
  | cons c cs ih =>
    intro r h
    by_cases hgt : c = '>'
    · simp [findGt, hgt] at h
      simp [← h]
    · by_cases hnl : c = '\n'
      · simp [findGt, hgt, hnl] at h
      · simp [findGt, hgt, hnl] at h
        have := ih r h
        simp
        omega

/-- `re.sub(r'<.*?>', '', text)`: remove each minimal `<...>` span (a `<` with
no matching `>` before a newline is kept literally). -/
def stripTags : List Char → List Char
  | [] => []
  | c :: cs =>
    if c = '<' then
      match h : findGt cs with
      | some rest => stripTags rest
      | none => c :: stripTags cs
    else c :: stripTags cs
termination_by l => l.length
decreasing_by
  · simp only [List.length_cons]
    have := findGt_len cs rest h
    omega
  · simp
  · simp

/-- `re.sub(r'\s+', ' ', text)`: collapse every whitespace run to a single
space.  `prevWs` records whether the previous character was whitespace. -/
def collapseRuns (prevWs : Bool) : List Char → List Char
  | [] => []
  | c :: cs =>
    if c.isWhitespace then
      if prevWs then collapseRuns true cs else ' ' :: collapseRuns true cs
    else c :: collapseRuns false cs

/-! ## Citation formatter

Embedding of `src/archive/ver2_Main_webUI_default_view/papers/CitationFormatter.py`.
A paper dict is modelled as a record carrying the four keys the formatter reads;
the `paper.get(key, default)` defaults are not exercised because the record
always carries its fields.  The `accessed` date (`datetime.now().strftime`) is
wall-clock-dependent and passed in as a parameter. -/

/-- A paper dict as consumed by `CitationFormatter`. -/
structure PaperDict where
  authors : List String
  year : String
  title : String
  link : String
deriving DecidableEq, Repr

namespace CitationFormatter

/-- `a.split()` giving `(a.split()[0], a.split()[-1])`, raising `IndexError`
when the split is empty (as Python's `a.split()[-1]` would). -/
def nameFL (a : String) : Except PyErr (String × String) :=
  match pySplitWs a with
  | [] => Except.error PyErr.indexError
  | t :: ts => Except.ok (t, (t :: ts).getLast (List.cons_ne_nil t ts))

/-- `CitationFormatter._format_authors` (Harvard/Chicago author string). -/
def format_authors (authors_list : List String) : Except PyErr String :=
  match authors_list with
  | [] => Except.ok ""
  | [a] => do
    let fl ← nameFL a
    Except.ok (fl.2 ++ ", " ++ String.singleton fl.1.front ++ ".")
  | [x, y] => do
    let f1 ← nameFL x
    let f2 ← nameFL y
    Except.ok (f1.2 ++ ", " ++ String.singleton f1.1.front ++ ". and " ++
      f2.2 ++ ", " ++ String.singleton f2.1.front ++ ".")
  | [x, y, z] => do
    let f1 ← nameFL x
    let f2 ← nameFL y
    let f3 ← nameFL z
    Except.ok (f1.2 ++ ", " ++ String.singleton f1.1.front ++ "., " ++
      f2.2 ++ ", " ++ String.singleton f2.1.front ++ " and " ++
      f3.2 ++ ", " ++ String.singleton f3.1.front ++ ".")
  | a :: _ => do
    let f1 ← nameFL a
    Except.ok (f1.2 ++ ", " ++ String.singleton f1.1.front ++ ". et al.")

/-- `CitationFormatter._format_authors_apa`. -/
def format_authors_apa (authors_list : List String) : Except PyErr String :=
  match authors_list with
  | [] => Except.ok ""
  | _ => do
    let formatted ← (authors_list.take 7).mapM (fun a =>
      match pySplitWs a with
      | [] => Except.error PyErr.indexError
      | t :: ts => Except.ok ((t :: ts).getLast (List.cons_ne_nil t ts) ++ ", " ++
          String.intercalate " " ((t :: ts).dropLast.map
            (fun p => String.singleton p.front ++ "."))))
    let formatted := if authors_list.length > 7 then formatted ++ ["et al."] else formatted
    Except.ok (String.intercalate ", & " formatted)

/-- `CitationFormatter._format_authors_mla`. -/
def format_authors_mla (authors_list : List String) : Except PyErr String :=
  match authors_list with
  | [] => Except.ok ""
  | _ => do
    let formatted ← authors_list.mapM (fun a =>
      match pySplitWs a with
      | [] => Except.error PyErr.indexError
      | t :: ts => Except.ok ((t :: ts).getLast (List.cons_ne_nil t ts) ++ ", " ++
          String.intercalate " " (t :: ts).dropLast))
    Except.ok (String.intercalate ", " formatted)

/-- `CitationFormatter.harvard`. -/
def harvard (paper : PaperDict) (accessed : String) : Except PyErr String := do
  let authors_str ← format_authors paper.authors
  Except.ok (authors_str ++ " (" ++ paper.year ++ ") '" ++ paper.title ++
    "', arXiv. Available at: " ++ paper.link ++ " (Accessed: " ++ accessed ++ ").")

/-- `CitationFormatter.apa`. -/
def apa (paper : PaperDict) : Except PyErr String := do
  let authors_str ← format_authors_apa paper.authors
  Except.ok (authors_str ++ " (" ++ paper.year ++ "). " ++ paper.title ++
    ". arXiv. " ++ paper.link)

/-- `CitationFormatter.mla`. -/
def mla (paper : PaperDict) (accessed : String) : Except PyErr String := do
  let authors_str ← format_authors_mla paper.authors
  Except.ok (authors_str ++ ". \"" ++ paper.title ++ ".\" arXiv, " ++ paper.year ++
    ". Web. Accessed " ++ accessed ++ ". " ++ paper.link ++ ".")

/-- `CitationFormatter.chicago`. -/
def chicago (paper : PaperDict) (accessed : String) : Except PyErr String := do
  let authors_str ← format_authors paper.authors
  Except.ok (authors_str ++ ". \"" ++ paper.title ++ ".\" arXiv, " ++ paper.year ++
    ". Accessed " ++ accessed ++ ". " ++ paper.link)

/-- `CitationFormatter.ieee` (with its bracketed `number`, default 1 at call sites). -/
def ieee (paper : PaperDict) (number : Nat) : Except PyErr String := do
  let strs ← paper.authors.mapM (fun a =>
    match pySplitWs a with
    | [] => Except.error PyErr.indexError
    | t :: ts => Except.ok ((t :: ts).getLast (List.cons_ne_nil t ts) ++ " " ++
        String.singleton t.front ++ "."))
  Except.ok ("[" ++ toString number ++ "] " ++ String.intercalate ", " strs ++
    ", \"" ++ paper.title ++ ",\" arXiv, " ++ paper.year ++ ". " ++ paper.link)

/-- `CitationFormatter.bibtex`. -/
def bibtex (paper : PaperDict) : Except PyErr String :=
  let authors_str := String.intercalate " and " paper.authors
  let citation_key := String.mk ((paper.title.toList.filter Char.isAlphanum).take 20) ++
    paper.year
  Except.ok ("@misc\x7b" ++ citation_key ++ ",\n  author = \x7b" ++ authors_str ++
    "\x7d,\n  title = \x7b" ++ paper.title ++ "\x7d,\n  year = \x7b" ++ paper.year ++
    "\x7d,\n  howpublished = \x7barXiv\x7d,\n  note = \x7bAvailable at: " ++
    paper.link ++ "\x7d\n\x7d")

/-- `CitationFormatter.format`: dispatch on the membership list
`["harvard", "apa", "mla", "chicago", "bibtex"]` (note: `"ieee"` is absent from
the source's list), defaulting to `harvard`. -/
def format (paper : PaperDict) (style : String) (accessed : String) : Except PyErr String :=
  if style ∈ (["harvard", "apa", "mla", "chicago", "bibtex"] : List String) then
    match style with
    | "harvard" => harvard paper accessed
    | "apa" => apa paper
    | "mla" => mla paper accessed
    | "chicago" => chicago paper accessed
    | "bibtex" => bibtex paper
    | _ => harvard paper accessed
  else harvard paper accessed

/-- Total surname accessor: `a.split()[-1]` with a junk default (used only in
spec-side renderings under a well-formedness hypothesis). -/
def surnameOf (a : String) : String := ((pySplitWs a).getLast?).getD ""

/-- Total initial accessor: `a.split()[0][0]` with a junk default. -/
def initialOf (a : String) : String := String.singleton (((pySplitWs a).head?).getD "").front

/-- Modelled from the amended claim: the Harvard author rendering actually
produced by the source, i.e. boundary cases as in C1 except that the
three-author case omits the period after the second author's initial. -/
def harvardAuthorsAmended : List String → String
  | [] => ""
  | [a] => surnameOf a ++ ", " ++ initialOf a ++ "."
  | [x, y] => surnameOf x ++ ", " ++ initialOf x ++ ". and " ++
      surnameOf y ++ ", " ++ initialOf y ++ "."
  | [x, y, z] => surnameOf x ++ ", " ++ initialOf x ++ "., " ++
      surnameOf y ++ ", " ++ initialOf y ++ " and " ++
      surnameOf z ++ ", " ++ initialOf z ++ "."
  | a :: _ => surnameOf a ++ ", " ++ initialOf a ++ ". et al."

end CitationFormatter

/-! ## Further Python string primitives -/

/-- Python `s.strip()`: drop leading and trailing whitespace. -/
def pyStrip (s : String) : String :=
  String.mk (((s.toList.dropWhile Char.isWhitespace).reverse.dropWhile
    Char.isWhitespace).reverse)

/-- Python `s.split(".")` on a character list: segments between `'.'`
occurrences, empties kept. -/
def splitOnDot : List Char → List (List Char)
  | [] => [[]]
  | c :: cs =>
    if c = '.' then [] :: splitOnDot cs
    else
      match splitOnDot cs with
      | [] => [[c]]
      | t :: ts => (c :: t) :: ts

/-- Python `s.split(".")`. -/
def pySplitDot (s : String) : List String := (splitOnDot s.toList).map String.mk

/-! ## arXiv query builder

Embedding of `ArxivSearcher.build_query` (`ver9 .../QueryAPI.py`) =
`build_arxiv_query` (`Doc-Scraper/webUI/papers/pipeline.py`). -/

/-- `build_query(ranked_keywords, summary, top_n=5)`: join the top-n keywords
and the summary, drop every character outside `[a-zA-Z0-9\s]`, and join the
whitespace-separated tokens with `+`. -/
def build_arxiv_query (ranked_keywords : List (String × Option ℚ)) (summary : String)
    (top_n : Nat) : String :=
  let keywords := (ranked_keywords.take top_n).map (fun kw => kw.1)
  let combined := String.intercalate " " keywords ++ " " ++ summary
  let filtered := combined.toList.filter (fun c => c.isAlphanum || c.isWhitespace)
  String.mk (joinSep '+' (splitWsChars filtered))

/-! ## Paragraph cleaner

Embedding of `ParagraphCleaner._clean` (`ver3 .../Cleaner.py`) =
`clean_paragraph_spacy` (`Doc-Scraper/webUI/papers/pipeline.py`), with the
external spaCy sentence segmenter passed in as `seg`. -/

/-- The text handed to the segmenter: tags removed, whitespace runs collapsed,
ends stripped (`re.sub(r'<.*?>', '', t)`, `re.sub(r'\s+', ' ', t).strip()`). -/
def cleanedText (text : String) : String :=
  pyStrip (String.mk (collapseRuns false (stripTags text.toList)))

/-- The stripped segmented sentences: `[sent.text.strip() for sent in doc.sents]`. -/
def segSentences (seg : String → List String) (text : String) : List String :=
  (seg (cleanedText text)).map pyStrip

/-- The sentences surviving the threshold:
`[s for s in sentences if len(s.split()) >= min_words]`. -/
def cleanSentences (seg : String → List String) (min_words : Nat) (text : String) :
    List String :=
  (segSentences seg text).filter (fun s => decide (min_words ≤ wordCount s))

/-- `_clean` / `clean_paragraph_spacy` (default `min_words=10`,
`remove_short=True`): `' '.join` of the surviving sentences. -/
def clean_paragraph (seg : String → List String) (min_words : Nat) (text : String) :
    String :=
  String.intercalate " " (cleanSentences seg min_words text)

/-! ## Keyword ranker

Embedding of `rank_keywords_llm` (`Doc-Scraper/webUI/papers/pipeline.py`) and
`LLMClient.rank_keywords` (`Doc-Scraper/archive/ver1/LLMClient.py`).  The
composition of `call_llm`, code-fence stripping and `json.loads` is modelled by
the `resp` parameter: `none` models a `json.JSONDecodeError`, `some r` a parsed
JSON object. -/

/-- A parsed item of the ranking response: the values at its "keyword" and
"relevance" keys when present (`kw["..."]` raises `KeyError` when absent). -/
structure RankItem where
  keyword : Option String
  relevance : Option ℚ
deriving DecidableEq, Repr

/-- A parsed ranking response: the value at its "ranked_keywords" key. -/
structure RankResp where
  ranked_keywords : Option (List RankItem)
deriving DecidableEq, Repr

/-- `rank_keywords_llm`: only `json.JSONDecodeError` is caught (yielding the
original keywords with null scores); on a parsed response the result mirrors
`llm_json["ranked_keywords"]`, and missing keys raise `KeyError`. -/
def rank_keywords_llm (resp : Option RankResp) (keywords : List String) :
    Except PyErr (List (String × Option ℚ)) :=
  match resp with
  | none => Except.ok (keywords.map (fun kw => (kw, none)))
  | some r =>
    match r.ranked_keywords with
    | none => Except.error PyErr.keyError
    | some items =>
      items.mapM (fun it =>
        match it.keyword with
        | none => Except.error PyErr.keyError
        | some k =>
          match it.relevance with
          | none => Except.error PyErr.keyError
          | some v => Except.ok (k, some v))

/-- `LLMClient.rank_keywords`: the same body under a bare `except:`, so every
failure (not only decode errors) falls back to the original keywords with null
scores. -/
def LLMClient.rank_keywords (resp : Option RankResp) (keywords : List String) :
    List (String × Option ℚ) :=
  match rank_keywords_llm resp keywords with
  | Except.ok l => l
  | Except.error _ => keywords.map (fun kw => (kw, none))

/-! ## Keyword/summary extractor

Embedding of `extract_keywords_and_summary`
(`Doc-Scraper/archive/ver0/ver4_extract_key_ele.py`).  `responses idx` is the
parse outcome of paragraph `idx`'s LLM response (`none` = `json.JSONDecodeError`
on the fence-stripped text).  In the source, the retry branch executes
`llm_text = call_llm()` — `call_llm` requires two positional arguments
(`prompt`, `headers`), so Python raises `TypeError` there, which no handler
catches; the stricter-prompt retry and the heuristic fallback below it are
unreachable when `retry_on_fail` is true. -/

/-- A parsed extraction response: the values at its "keywords" and "summary"
keys when present (`llm_json.get` supplies `[]` / `None` defaults). -/
structure ExtractResp where
  keywords : Option (List String)
  summary : Option String
deriving DecidableEq, Repr

/-- Heuristic fallback keywords: first word of each nonblank sentence obtained
by splitting the paragraph on ".", capped at 8
(`[s.strip().split()[0] for s in sentences if s.strip() != ""][:8]`). -/
def heuristicKeywords (paragraph : String) : List String :=
  (((pySplitDot paragraph).filter (fun s => pyStrip s ≠ "")).map
    (fun s => String.mk ((splitWsChars (pyStrip s).toList).headD []))).take 8

/-- Heuristic fallback summary: the stripped first sentence
(`sentences[0].strip() if sentences else None`). -/
def heuristicSummary (paragraph : String) : Option String :=
  match pySplitDot paragraph with
  | [] => none
  | s :: _ => some (pyStrip s)

/-- The per-paragraph loop of `extract_keywords_and_summary`; the two result
association lists model `keywords_per_paragraph` and `summary_per_paragraph`. -/
def extractLoop (responses : Nat → Option ExtractResp) (get_summary retry_on_fail : Bool) :
    Nat → List String →
    Except PyErr (List (Nat × List String) × List (Nat × Option String))
  | _, [] => Except.ok ([], [])
  | idx, para :: rest =>
    match responses idx with
    | some j =>
      match extractLoop responses get_summary retry_on_fail (idx + 1) rest with
      | Except.error e => Except.error e
      | Except.ok (ks, ss) =>
        Except.ok ((idx, j.keywords.getD []) :: ks,
          if get_summary then (idx, j.summary) :: ss else ss)
    | none =>
      if retry_on_fail then Except.error PyErr.typeError
      else
        match extractLoop responses get_summary retry_on_fail (idx + 1) rest with
        | Except.error e => Except.error e
        | Except.ok (ks, ss) =>
          Except.ok ((idx, heuristicKeywords para) :: ks,
            if get_summary then (idx, heuristicSummary para) :: ss else ss)

/-- `extract_keywords_and_summary(paragraphs, get_summary, retry_on_fail)`. -/
def extract_keywords_and_summary (responses : Nat → Option ExtractResp)
    (paragraphs : List String) (get_summary retry_on_fail : Bool) :
    Except PyErr (List (Nat × List String) × List (Nat × Option String)) :=
  extractLoop responses get_summary retry_on_fail 0 paragraphs

/-! ## Semantic ranker (record model)

Embedding of `SemanticRanker.rank` (`ver6 .../SemanticRanker.py`) =
`rank_papers_by_relevance` (`Doc-Scraper/webUI/papers/pipeline.py`).  The
external sentence-embedding model (`model.encode`) is the parameter `encode`;
the floating-point square root inside `np.linalg.norm` is the parameter
`sqrtQ`; floats are idealised as `ℚ`, so `round(x, 2)` becomes rounding to the
nearest multiple of 1/100 (the float tie-to-even case is immaterial here). -/

/-- A paper record as produced by `search_arxiv` and consumed by the ranker
and the pipelines; `relevance` is the key added by ranking (`none` = absent). -/
structure PaperRec where
  title : String
  link : String
  summary : String
  authors : List String
  year : String
  relevance : Option ℚ
deriving DecidableEq, Repr

/-- `np.dot` on idealised vectors. -/
def dotQ : List ℚ → List ℚ → ℚ
  | [], _ => 0
  | _, [] => 0
  | a :: as, b :: bs => a * b + dotQ as bs

/-- Sum of squares: the radicand of `np.linalg.norm v`. -/
def sumSq (v : List ℚ) : ℚ := dotQ v v

/-- `np.dot(a, b) / (np.linalg.norm(a) * np.linalg.norm(b))`. -/
def cosSim (sqrtQ : ℚ → ℚ) (a b : List ℚ) : ℚ :=
  dotQ a b / (sqrtQ (sumSq a) * sqrtQ (sumSq b))

/-- Python `round(x, 2)` idealised over ℚ. -/
def pyRound2 (x : ℚ) : ℚ := ((round (x * 100) : ℤ) : ℚ) / 100

/-- `paper = papers[idx].copy(); paper['relevance'] = r` in the record model. -/
def setRelevance (p : PaperRec) (r : ℚ) : PaperRec :=
  ⟨p.title, p.link, p.summary, p.authors, p.year, some r⟩

/-- The enumerated similarity list `sims`:
`[(i, dot(para_emb, pe)/(norm(para_emb)*norm(pe))) for i, pe in enumerate(paper_embs)]`. -/
def simList (sqrtQ : ℚ → ℚ) (encode : String → List ℚ) (paragraph_summary : String)
    (papers : List PaperRec) : List (Nat × ℚ) :=
  (papers.map (fun p => encode p.summary)).enum.map
    (fun ie => (ie.1, cosSim sqrtQ (encode paragraph_summary) ie.2))

/-- `SemanticRanker.rank(paragraph_summary, papers, top_k=3)`:
`sims.sort(key=lambda x: x[1], reverse=True)` is a stable descending sort on
the similarity, then the loop over `sims[:top_k]` copies each indexed paper and
sets its `relevance` to `round(sim*100, 2)`. -/
def SemanticRanker.rank (sqrtQ : ℚ → ℚ) (encode : String → List ℚ)
    (paragraph_summary : String) (papers : List PaperRec) (top_k : Nat) :
    List PaperRec :=
  match papers with
  | [] => []
  | _ :: _ =>
    let sims := simList sqrtQ encode paragraph_summary papers
    let sorted := sims.mergeSort (fun a b => decide (b.2 ≤ a.2))
    (sorted.take top_k).map (fun is =>
      setRelevance (papers.getD is.1 ⟨"", "", "", [], "", none⟩)
        (pyRound2 (is.2 * 100)))

/-! ## Semantic ranker (heap model, for the mutation frame property)

To state that `rank` never mutates its arguments, the Python heap is made
explicit: a paper dict is an insertion-ordered association list, the heap is a
list of dict cells addressed by index, and the `papers` argument is a list of
cell addresses.  `paper = papers[idx].copy()` allocates a fresh cell (appended
to the heap) holding the same associations, and `paper['relevance'] = r`
updates only that fresh cell. -/

/-- A Python value stored in a paper dict. -/
inductive Val where
  | s (v : String)
  | ls (v : List String)
  | q (v : ℚ)
deriving DecidableEq, Repr

/-- An insertion-ordered Python dict (keys unique). -/
abbrev Dict := List (String × Val)

/-- `d[k]` lookup (first matching key). -/
def getKey : Dict → String → Option Val
  | [], _ => none
  | kv :: d, k => if kv.1 = k then some kv.2 else getKey d k

/-- `d[k] = v`: overwrite the existing key in place, else append (Python dicts
preserve insertion order). -/
def setKey : Dict → String → Val → Dict
  | [], k, v => [(k, v)]
  | kv :: d, k, v => if kv.1 = k then (k, v) :: d else kv :: setKey d k v

/-- The loop `for idx, sim in sims[:top_k]` of `SemanticRanker.rank` on the
explicit heap: each iteration reads the addressed input cell, allocates a copy
with its `relevance` key set, and appends the fresh cell's address to the
output list. -/
def rankLoopH (addrs : List Nat) : List (Nat × ℚ) → List Dict → List Dict × List Nat
  | [], h => (h, [])
  | is :: rest, h =>
    let addr := addrs.getD is.1 0
    let cell := h.getD addr []
    let newCell := setKey cell "relevance" (Val.q (pyRound2 (is.2 * 100)))
    let hr := rankLoopH addrs rest (h ++ [newCell])
    (hr.1, h.length :: hr.2)

/-- `SemanticRanker.rank` on the explicit heap.  `encode` is the external
embedding model applied to the value at each paper's "summary" key
(`p['summary']` raises `KeyError` when absent).  Returns the final heap and the
list of result-cell addresses. -/
def rankH (sqrtQ : ℚ → ℚ) (encode : Val → List ℚ) (summaryV : Val)
    (heap : List Dict) (paperAddrs : List Nat) (top_k : Nat) :
    Except PyErr (List Dict × List Nat) :=
  match paperAddrs with
  | [] => Except.ok (heap, [])
  | _ :: _ =>
    match paperAddrs.mapM (fun a =>
        match getKey (heap.getD a []) "summary" with
        | some v => Except.ok v
        | none => Except.error PyErr.keyError) with
    | Except.error e => Except.error e
    | Except.ok summaries =>
      let sims := (summaries.map encode).enum.map
        (fun ie => (ie.1, cosSim sqrtQ (encode summaryV) ie.2))
      let sorted := sims.mergeSort (fun a b => decide (b.2 ≤ a.2))
      Except.ok (rankLoopH paperAddrs (sorted.take top_k) heap)

/-! ## Pipeline orchestrators

Embedding of `pipeline_run` from `ver5_Main_webUI_error_msg/papers/pipeline.py`
(class-based: one result entry per cleaned paragraph) and from
`Doc-Scraper/webUI/papers/pipeline.py` (flattened: one row per ranked paper).
Document extraction is external, so the extractor's ordered paragraph list is a
parameter; the per-call network responses are the oracles `respE` (extraction)
and `respR` (ranking), indexed by paragraph position, and `search` is the
arXiv searcher. -/

/-- The paper-dict view of a `PaperRec`, as read by the citation formatter. -/
def PaperRec.toDict (p : PaperRec) : PaperDict := ⟨p.authors, p.year, p.title, p.link⟩

/-- `d[i]` on the `{paragraph index ↦ value}` dicts built by the extractor. -/
def dlookup {α : Type} (l : List (Nat × α)) (i : Nat) : Option α :=
  (l.find? (fun kv => decide (kv.1 = i))).map (fun kv => kv.2)

/-- `" " + summary` with `summary = None` raises `TypeError` in
`build_query`; a present summary passes through. -/
def v5_summary_str : Option String → Except PyErr String
  | some s => Except.ok s
  | none => Except.error PyErr.typeError

/-- `LLMClient.extract_keywords_and_summary` (ver1 `LLMClient.py`) =
`extract_keywords_and_summary` (Doc-Scraper webUI `pipeline.py`): no retry; a
decode failure stores `[]` keywords and `""` summary and processing continues. -/
def LLMClient.extract_keywords_and_summary (responses : Nat → Option ExtractResp) :
    Nat → List String → List (Nat × List String) × List (Nat × Option String)
  | _, [] => ([], [])
  | idx, _ :: rest =>
    let r := LLMClient.extract_keywords_and_summary responses (idx + 1) rest
    match responses idx with
    | some j => ((idx, j.keywords.getD []) :: r.1, (idx, j.summary) :: r.2)
    | none => ((idx, []) :: r.1, (idx, some "") :: r.2)

/-- `ParagraphCleaner(paragraphs).clean()`:
`[self._clean(p) for p in paragraphs if self._clean(p)]` (default threshold 10). -/
def cleanedParas (seg : String → List String) (paragraphs : List String) : List String :=
  (paragraphs.map (clean_paragraph seg 10)).filter (fun s => decide (s ≠ ""))

/-- One paper row of a ver5 `paragraph_result["papers"]` entry. -/
structure V5Paper where
  title : String
  authors : List String
  year : String
  link : String
  relevance : Option ℚ
  citation : String
deriving DecidableEq, Repr

/-- One per-paragraph entry of the ver5 result list. -/
structure V5Entry where
  paragraph : String
  papers : List V5Paper
deriving DecidableEq, Repr

/-- The ver5 loop body for one paragraph: rank keywords, build the query,
search, rank papers, and format each top paper into a row. -/
def v5_process (resp : Option RankResp) (search : String → List PaperRec)
    (sqrtQ : ℚ → ℚ) (encode : String → List ℚ) (style accessed : String)
    (top_k : Nat) (kws : List String) (summaryOpt : Option String) (para : String) :
    Except PyErr V5Entry :=
  match v5_summary_str summaryOpt with
  | Except.error e => Except.error e
  | Except.ok s =>
    match (SemanticRanker.rank sqrtQ encode s
        (search (build_arxiv_query (LLMClient.rank_keywords resp kws) s 5))
        top_k).mapM (fun p =>
        match CitationFormatter.format p.toDict style accessed with
        | Except.error e => Except.error e
        | Except.ok c =>
          Except.ok (⟨p.title, p.authors, p.year, p.link, p.relevance, c⟩ : V5Paper)) with
    | Except.error e => Except.error e
    | Except.ok rows => Except.ok ⟨para, rows⟩

/-- The ver5 `for idx, para in enumerate(cleaned_paragraphs)` loop. -/
def v5_loop (respR : Nat → Option RankResp) (search : String → List PaperRec)
    (sqrtQ : ℚ → ℚ) (encode : String → List ℚ) (style accessed : String) (top_k : Nat)
    (kwd : List (Nat × List String)) (smd : List (Nat × Option String)) :
    Nat → List String → Except PyErr (List V5Entry)
  | _, [] => Except.ok []
  | idx, para :: rest =>
    match dlookup kwd idx with
    | none => Except.error PyErr.keyError
    | some kws =>
      match dlookup smd idx with
      | none => Except.error PyErr.keyError
      | some sm =>
        match v5_process (respR idx) search sqrtQ encode style accessed top_k kws sm para with
        | Except.error e => Except.error e
        | Except.ok e =>
          match v5_loop respR search sqrtQ encode style accessed top_k kwd smd
              (idx + 1) rest with
          | Except.error er => Except.error er
          | Except.ok es => Except.ok (e :: es)

/-- `pipeline_run` of `ver5_Main_webUI_error_msg/papers/pipeline.py` (results
list only; the export branches are outside the cited loop).  Empty extraction
or cleaning short-circuits to `[]`; all-empty keywords raise the "API limit"
`RuntimeError`. -/
def pipeline_run_v5 (seg : String → List String) (respE : Nat → Option ExtractResp)
    (respR : Nat → Option RankResp) (search : String → List PaperRec)
    (sqrtQ : ℚ → ℚ) (encode : String → List ℚ) (style accessed : String)
    (top_k : Nat) (paragraphs : List String) : Except PyErr (List V5Entry) :=
  match paragraphs with
  | [] => Except.ok []
  | _ :: _ =>
    match cleanedParas seg paragraphs with
    | [] => Except.ok []
    | _ :: _ =>
      if (LLMClient.extract_keywords_and_summary respE 0
            (cleanedParas seg paragraphs)).1.isEmpty ||
          (LLMClient.extract_keywords_and_summary respE 0
            (cleanedParas seg paragraphs)).1.all (fun kv => kv.2.isEmpty) then
        Except.error PyErr.runtimeError
      else
        v5_loop respR search sqrtQ encode style accessed top_k
          (LLMClient.extract_keywords_and_summary respE 0 (cleanedParas seg paragraphs)).1
          (LLMClient.extract_keywords_and_summary respE 0 (cleanedParas seg paragraphs)).2
          0 (cleanedParas seg paragraphs)

/-- One flattened result row of the Doc-Scraper webUI `pipeline_run`. -/
structure DSEntry where
  title : String
  authors : List String
  year : String
  citation : String
  link : String
  relevance : Option ℚ
  matched_text : String
deriving DecidableEq, Repr

/-- `format_harvard` (Doc-Scraper webUI `pipeline.py`): author branches
textually identical to `CitationFormatter._format_authors`, composed into the
same Harvard template. -/
def format_harvard (paper : PaperRec) (accessed : String) : Except PyErr String :=
  match CitationFormatter.format_authors paper.authors with
  | Except.error e => Except.error e
  | Except.ok authors_str =>
    Except.ok (authors_str ++ " (" ++ paper.year ++ ") '" ++ paper.title ++
      "', arXiv. Available at: " ++ paper.link ++ " (Accessed: " ++ accessed ++ ").")

/-- The Doc-Scraper webUI per-paragraph loop: note the inner
`for paper in top_papers` appends one flattened row per ranked paper — a
paragraph whose search yields no papers contributes no row. -/
def ds_loop (respR : Nat → Option RankResp) (search : String → List PaperRec)
    (sqrtQ : ℚ → ℚ) (encode : String → List ℚ) (accessed : String)
    (kwd : List (Nat × List String)) (smd : List (Nat × Option String)) :
    Nat → List String → Except PyErr (List DSEntry)
  | _, [] => Except.ok []
  | idx, para :: rest =>
    match dlookup kwd idx with
    | none => Except.error PyErr.keyError
    | some kws =>
      match dlookup smd idx with
      | none => Except.error PyErr.keyError
      | some sm =>
        match v5_summary_str sm with
        | Except.error e => Except.error e
        | Except.ok s =>
          match rank_keywords_llm (respR idx) kws with
          | Except.error e => Except.error e
          | Except.ok ranked =>
            let query := build_arxiv_query ranked s 5
            let papers := search query
            let top := SemanticRanker.rank sqrtQ encode s papers 3
            match top.mapM (fun p =>
                match format_harvard p accessed with
                | Except.error e => Except.error e
                | Except.ok c =>
                  Except.ok (⟨p.title, p.authors, p.year, c, p.link, p.relevance,
                    para⟩ : DSEntry)) with
            | Except.error e => Except.error e
            | Except.ok rows =>
              match ds_loop respR search sqrtQ encode accessed kwd smd (idx + 1) rest with
              | Except.error er => Except.error er
              | Except.ok es => Except.ok (rows ++ es)

/-- `pipeline_run` of `Doc-Scraper/webUI/papers/pipeline.py` (file reading of
`para_processing` is external; its cleaned output comes through `seg` and the
raw `paragraphs`). -/
def pipeline_run_ds (seg : String → List String) (respE : Nat → Option ExtractResp)
    (respR : Nat → Option RankResp) (search : String → List PaperRec)
    (sqrtQ : ℚ → ℚ) (encode : String → List ℚ) (accessed : String)
    (paragraphs : List String) : Except PyErr (List DSEntry) :=
  match cleanedParas seg paragraphs with
  | [] => Except.ok []
  | _ :: _ =>
    ds_loop respR search sqrtQ encode accessed
      (LLMClient.extract_keywords_and_summary respE 0 (cleanedParas seg paragraphs)).1
      (LLMClient.extract_keywords_and_summary respE 0 (cleanedParas seg paragraphs)).2
      0 (cleanedParas seg paragraphs)

/-! ### Theorems -/

namespace CitationFormatter

theorem nameFL_eq (a : String) (h : pySplitWs a ≠ []) :
    nameFL a = Except.ok (((pySplitWs a).head?.getD ""), ((pySplitWs a).getLast?.getD "")) := by
  unfold nameFL
  match hs : pySplitWs a with
  | [] => exact absurd hs h
  | t :: ts =>
    rw [List.getLast?_eq_getLast (t :: ts) (List.cons_ne_nil t ts)]
    rfl

end CitationFormatter

/-- C1: the Harvard author formatter on 0/1/2/3/4+ authors.  The claim's
three-author rendering "Last1, F1., Last2, F2. and Last3, F3." is refuted: the
source omits the period after the second author's initial, producing
"Jones, B and" rather than "Jones, B. and". -/
theorem c1_counterexample :
    CitationFormatter.format_authors ["Alice Smith", "Bob Jones", "Carol White"] =
      Except.ok "Smith, A., Jones, B and White, C." ∧
    "Smith, A., Jones, B and White, C." ≠ "Smith, A., Jones, B. and White, C." := by
  constructor
  · rfl
  · decide

/-- C1 (amended): for author names that split into at least one token, the
Harvard author formatter renders 1 author as "Last, F."; 2 authors as
"Last1, F1. and Last2, F2."; exactly 3 authors as
"Last1, F1., Last2, F2 and Last3, F3." (no serial comma, and no period after
the second author's initial); 4 or more authors as "Last1, F1. et al."; and 0
authors as the empty string without raising. -/
theorem c1_format_authors_characterisation (authors : List String)
    (h : ∀ a ∈ authors, pySplitWs a ≠ []) :
    CitationFormatter.format_authors authors =
      Except.ok (CitationFormatter.harvardAuthorsAmended authors) := by
  match authors with
  | [] => rfl
  | [a] =>
    have ha := h a (by simp)
    simp only [CitationFormatter.format_authors, CitationFormatter.nameFL_eq a ha]
    rfl
  | [x, y] =>
    have hx := h x (by simp)
    have hy := h y (by simp)
    simp only [CitationFormatter.format_authors, CitationFormatter.nameFL_eq x hx,
      CitationFormatter.nameFL_eq y hy]
    rfl
  | [x, y, z] =>
    have hx := h x (by simp)
    have hy := h y (by simp)
    have hz := h z (by simp)
    simp only [CitationFormatter.format_authors, CitationFormatter.nameFL_eq x hx,
      CitationFormatter.nameFL_eq y hy, CitationFormatter.nameFL_eq z hz]
    rfl
  | a :: b :: c :: d :: rest =>
    have ha := h a (by simp)
    simp only [CitationFormatter.format_authors, CitationFormatter.nameFL_eq a ha]
    rfl

/-- C1 witness: the characterisation applied to a concrete three-author list. -/
theorem c1_witness :
    CitationFormatter.format_authors ["Alice Smith", "Bob Jones", "Carol White"] =
      Except.ok (CitationFormatter.harvardAuthorsAmended
        ["Alice Smith", "Bob Jones", "Carol White"]) :=
  c1_format_authors_characterisation ["Alice Smith", "Bob Jones", "Carol White"] (by decide)

/-- C2: the claim that `format(paper, "ieee")` yields the IEEE rendering is
refuted: `"ieee"` is absent from the source's dispatch list, so it falls
through to the Harvard rendering, which differs from `ieee(paper, 1)`. -/
theorem c2_counterexample :
    CitationFormatter.format ⟨["Alice Smith"], "2020", "T", "L"⟩ "ieee" "01 Jan 2025" =
      Except.ok "Smith, A. (2020) 'T', arXiv. Available at: L (Accessed: 01 Jan 2025)." ∧
    CitationFormatter.ieee ⟨["Alice Smith"], "2020", "T", "L"⟩ 1 =
      Except.ok "[1] Smith A., \"T,\" arXiv, 2020. L" ∧
    ("Smith, A. (2020) 'T', arXiv. Available at: L (Accessed: 01 Jan 2025)." : String) ≠
      "[1] Smith A., \"T,\" arXiv, 2020. L" :=
  ⟨rfl, rfl, by decide⟩

/-- C2 (amended): `format` dispatches the styles harvard, apa, mla, chicago and
bibtex to the renderer of the same name, and every other style — including
"ieee", which the source's dispatch list omits — defaults to the Harvard
rendering. -/
theorem c2_format_dispatch (paper : PaperDict) (accessed : String) :
    CitationFormatter.format paper "harvard" accessed =
      CitationFormatter.harvard paper accessed ∧
    CitationFormatter.format paper "apa" accessed = CitationFormatter.apa paper ∧
    CitationFormatter.format paper "mla" accessed =
      CitationFormatter.mla paper accessed ∧
    CitationFormatter.format paper "chicago" accessed =
      CitationFormatter.chicago paper accessed ∧
    CitationFormatter.format paper "bibtex" accessed = CitationFormatter.bibtex paper ∧
    ∀ style : String,
      style ∉ (["harvard", "apa", "mla", "chicago", "bibtex"] : List String) →
      CitationFormatter.format paper style accessed =
        CitationFormatter.harvard paper accessed := by
  refine ⟨rfl, rfl, rfl, rfl, rfl, ?_⟩
  intro style hs
  unfold CitationFormatter.format
  rw [if_neg hs]

/-- C2 witness: the dispatch theorem applied at style `"ieee"`, which is not in
the dispatch list, on a concrete paper. -/
theorem c2_witness :
    CitationFormatter.format ⟨["Alice Smith"], "2020", "T", "L"⟩ "ieee" "d" =
      CitationFormatter.harvard ⟨["Alice Smith"], "2020", "T", "L"⟩ "d" :=
  (c2_format_dispatch ⟨["Alice Smith"], "2020", "T", "L"⟩ "d").2.2.2.2.2 "ieee" (by decide)

theorem splitWsAux_chars : ∀ (l acc : List Char),
    (∀ c ∈ acc, c.isWhitespace = false) →
    ∀ t ∈ splitWsAux l acc, ∀ c ∈ t, (c ∈ l ∨ c ∈ acc) ∧ c.isWhitespace = false := by
  intro l
  induction l with
  | nil =>
    intro acc hacc t ht c hc
    by_cases he : acc.isEmpty
    · simp [splitWsAux, he] at ht
    · simp [splitWsAux, he] at ht
      subst ht
      rw [List.mem_reverse] at hc
      exact ⟨Or.inr hc, hacc c hc⟩
  | cons c0 cs ih =>
    intro acc hacc t ht c hc
    by_cases hws : c0.isWhitespace
    · by_cases he : acc.isEmpty
      · rw [show splitWsAux (c0 :: cs) acc = splitWsAux cs [] by
          simp [splitWsAux, hws, he]] at ht
        have := ih [] (by simp) t ht c hc
        rcases this with ⟨hmem, hws'⟩
        rcases hmem with hmem | hmem
        · exact ⟨Or.inl (List.mem_cons_of_mem c0 hmem), hws'⟩
        · simp at hmem
      · rw [show splitWsAux (c0 :: cs) acc = acc.reverse :: splitWsAux cs [] by
          simp [splitWsAux, hws, he]] at ht
        rcases List.mem_cons.mp ht with ht2 | ht2
        · subst ht2
          rw [List.mem_reverse] at hc
          exact ⟨Or.inr hc, hacc c hc⟩
        · have := ih [] (by simp) t ht2 c hc
          rcases this with ⟨hmem, hws'⟩
          rcases hmem with hmem | hmem
          · exact ⟨Or.inl (List.mem_cons_of_mem c0 hmem), hws'⟩
          · simp at hmem
    · rw [show splitWsAux (c0 :: cs) acc = splitWsAux cs (c0 :: acc) by
        simp [splitWsAux, hws]] at ht
      have hacc' : ∀ d ∈ c0 :: acc, d.isWhitespace = false := by
        intro d hd
        rcases List.mem_cons.mp hd with hd | hd
        · subst hd; simpa using hws
        · exact hacc d hd
      have := ih (c0 :: acc) hacc' t ht c hc
      rcases this with ⟨hmem, hws'⟩
      rcases hmem with hmem | hmem
      · exact ⟨Or.inl (List.mem_cons_of_mem c0 hmem), hws'⟩
      · rcases List.mem_cons.mp hmem with hd | hd
        · exact ⟨Or.inl (by rw [hd]; exact List.mem_cons_self c0 cs), hws'⟩
        · exact ⟨Or.inr hd, hws'⟩

theorem splitWsChars_chars (l : List Char) :
    ∀ t ∈ splitWsChars l, ∀ c ∈ t, c ∈ l ∧ c.isWhitespace = false := by
  intro t ht c hc
  have := splitWsAux_chars l [] (by simp) t ht c hc
  rcases this with ⟨hmem, hws⟩
  rcases hmem with hmem | hmem
  · exact ⟨hmem, hws⟩
  · simp at hmem

theorem mem_joinSep (sep : Char) : ∀ (ts : List (List Char)) (c : Char),
    c ∈ joinSep sep ts → c = sep ∨ ∃ t ∈ ts, c ∈ t := by
  intro ts
  induction ts with
  | nil => intro c hc; simp [joinSep] at hc
  | cons t ts ih =>
    intro c hc
    cases ts with
    | nil =>
      simp [joinSep] at hc
      exact Or.inr ⟨t, by simp, hc⟩
    | cons t2 ts2 =>
      rw [show joinSep sep (t :: t2 :: ts2) = t ++ sep :: joinSep sep (t2 :: ts2) from rfl] at hc
      rcases List.mem_append.mp hc with hc | hc
      · exact Or.inr ⟨t, by simp, hc⟩
      · rcases List.mem_cons.mp hc with hc | hc
        · exact Or.inl hc
        · rcases ih c hc with hc | ⟨u, hu, hcu⟩
          · exact Or.inl hc
          · exact Or.inr ⟨u, List.mem_cons_of_mem t hu, hcu⟩

/-- C7: the Query Builder is a pure function of `(ranked_keywords, summary,
top_n)` — two calls with the same inputs give the same string — and every
character of its output is alphanumeric or `'+'`: the top-n keywords and the
summary are concatenated, every character outside `[a-zA-Z0-9\s]` is removed,
and the whitespace-separated tokens are joined with `'+'`. -/
theorem c7_build_query_charset (ranked_keywords : List (String × Option ℚ))
    (summary : String) (top_n : Nat) :
    build_arxiv_query ranked_keywords summary top_n =
      build_arxiv_query ranked_keywords summary top_n ∧
    ∀ c ∈ (build_arxiv_query ranked_keywords summary top_n).toList,
      c.isAlphanum = true ∨ c = '+' := by
  refine ⟨rfl, ?_⟩
  intro c hc
  have hc' : c ∈ joinSep '+'
      (splitWsChars ((String.intercalate " "
        ((ranked_keywords.take top_n).map (fun kw => kw.1)) ++ " " ++
          summary).toList.filter (fun c => c.isAlphanum || c.isWhitespace))) := hc
  rcases mem_joinSep '+' _ c hc' with hc2 | ⟨t, ht, hct⟩
  · exact Or.inr hc2
  · have := splitWsChars_chars _ t ht c hct
    rcases this with ⟨hmem, hws⟩
    have := List.mem_filter.mp hmem
    have hp := this.2
    simp only [Bool.or_eq_true] at hp
    rcases hp with hp | hp
    · exact Or.inl hp
    · rw [hp] at hws; simp at hws

/-- C7 witness: the charset property applied at a concrete input and a
concrete character of the output. -/
theorem c7_witness :
    ('a'.isAlphanum = true ∨ 'a' = '+') ∧
    build_arxiv_query [("ab", none)] "cd!" 5 = "ab+cd" :=
  ⟨(c7_build_query_charset [("ab", none)] "cd!" 5).2 'a' (by decide), rfl⟩

/-- C9: for every paragraph, segmenter behaviour and threshold, every sentence
kept by the Cleaner has at least `min_words` words; the kept sentences are a
sublist of the (stripped) segmented sentences — so the Cleaner never increases
the sentence count relative to the input segmentation — and the Cleaner
returns the empty string when no sentence survives. -/
theorem c9_cleaner (seg : String → List String) (min_words : Nat) (text : String) :
    (∀ s ∈ cleanSentences seg min_words text, min_words ≤ wordCount s) ∧
    (cleanSentences seg min_words text).Sublist (segSentences seg text) ∧
    (cleanSentences seg min_words text).length ≤ (segSentences seg text).length ∧
    (cleanSentences seg min_words text = [] → clean_paragraph seg min_words text = "") := by
  refine ⟨?_, List.filter_sublist _, (List.filter_sublist _).length_le, ?_⟩
  · intro s hs
    have := (List.mem_filter.mp hs).2
    simpa using this
  · intro h
    rw [clean_paragraph, h]
    rfl

/-- C9 witness: a segmentation with one short and one long sentence at
threshold 3 — the long sentence survives with at least 3 words, the kept list
is a sublist of the segmentation, and an empty segmentation yields "". -/
theorem c9_witness :
    (3 ≤ wordCount "one two three") ∧
    (cleanSentences (fun _ => ["a b", "one two three"]) 3 "x").Sublist
      (segSentences (fun _ => ["a b", "one two three"]) "x") ∧
    clean_paragraph (fun _ => ([] : List String)) 3 "x" = "" :=
  ⟨(c9_cleaner (fun _ => ["a b", "one two three"]) 3 "x").1 "one two three" (by decide),
   (c9_cleaner (fun _ => ["a b", "one two three"]) 3 "x").2.1,
   (c9_cleaner (fun _ => ([] : List String)) 3 "x").2.2.2 (by decide)⟩

theorem mapM_ok_length {α β : Type} (f : α → Except PyErr β) :
    ∀ (l : List α) (res : List β), l.mapM f = Except.ok res → res.length = l.length := by
  intro l
  induction l with
  | nil =>
    intro res h
    rw [List.mapM_nil] at h
    cases h
    rfl
  | cons a as ih =>
    intro res h
    rw [List.mapM_cons] at h
    cases hfa : f a with
    | error e =>
      rw [hfa] at h
      exact absurd h (by simp [Bind.bind, Except.bind])
    | ok b =>
      rw [hfa] at h
      cases hm : as.mapM f with
      | error e =>
        rw [hm] at h
        exact absurd h (by simp [Bind.bind, Except.bind])
      | ok bs =>
        rw [hm] at h
        simp [Bind.bind, Except.bind, Pure.pure, Except.pure] at h
        rw [← h]
        simp [ih bs hm]

/-- C4: the claim that the Keyword Ranker always returns a list of the same
length as its input keyword list is refuted: a response that parses as
`{"ranked_keywords": []}` against the two input keywords yields the empty
list; and a response that parses as JSON without the `"ranked_keywords"` key
raises `KeyError`, refuting "never raises on malformed LLM output". -/
theorem c4_counterexample :
    rank_keywords_llm (some ⟨some []⟩) ["alpha", "beta"] =
      Except.ok ([] : List (String × Option ℚ)) ∧
    ([] : List (String × Option ℚ)).length ≠ (["alpha", "beta"] : List String).length ∧
    rank_keywords_llm (some ⟨none⟩) ["alpha"] = Except.error PyErr.keyError :=
  ⟨rfl, by decide, rfl⟩

/-- C4 (amended): on a JSON-decode failure `rank_keywords_llm` returns the
original keywords in their original order paired with null scores — a list of
the same length as the input; when the response parses, the returned list
mirrors the response's `ranked_keywords` list, whose length is that of the
response, not necessarily the input's; and `LLMClient.rank_keywords`, whose
bare `except:` also catches the `KeyError` cases, never raises and falls back
to the original keywords whenever the pipeline version would raise. -/
theorem c4_rank_keywords (keywords : List String) :
    rank_keywords_llm none keywords =
      Except.ok (keywords.map (fun kw => (kw, (none : Option ℚ)))) ∧
    (keywords.map (fun kw => (kw, (none : Option ℚ)))).length = keywords.length ∧
    (∀ (items : List RankItem) (out : List (String × Option ℚ)),
      rank_keywords_llm (some ⟨some items⟩) keywords = Except.ok out →
      out.length = items.length) ∧
    (∀ resp e, rank_keywords_llm resp keywords = Except.error e →
      LLMClient.rank_keywords resp keywords =
        keywords.map (fun kw => (kw, (none : Option ℚ)))) := by
  refine ⟨rfl, by simp, ?_, ?_⟩
  · intro items out h
    exact mapM_ok_length _ items out h
  · intro resp e h
    unfold LLMClient.rank_keywords
    rw [h]

/-- C4 witness: the amended statement at concrete inputs — a parsed response
with one well-formed item gives a one-element result against two input
keywords, and the bare-except version falls back on the `KeyError` case. -/
theorem c4_witness :
    (([("b", some (1 : ℚ))] : List (String × Option ℚ)).length =
      ([⟨some "b", some (1 : ℚ)⟩] : List RankItem).length) ∧
    LLMClient.rank_keywords (some ⟨none⟩) ["alpha"] =
      [("alpha", (none : Option ℚ))] :=
  ⟨(c4_rank_keywords ["a", "b"]).2.2.1 [⟨some "b", some (1 : ℚ)⟩]
      [("b", some (1 : ℚ))] rfl,
   (c4_rank_keywords ["alpha"]).2.2.2 (some ⟨none⟩) PyErr.keyError rfl⟩

/-- C3: the claim that a paragraph whose LLM response fails JSON parsing is
retried once and then handled heuristically without raising is refuted by the
source: the retry branch calls `call_llm()` without its two required positional
arguments, so the first parse failure raises `TypeError` (with the default
`retry_on_fail=True`) and processing aborts instead of continuing; the
heuristic fallback behaves as claimed only when the retry is disabled. -/
theorem c3_retry_typeerror :
    extract_keywords_and_summary (fun _ => none)
      ["Alpha beta gamma. Delta.", "Second one."] true true =
      Except.error PyErr.typeError ∧
    extract_keywords_and_summary (fun _ => none)
      ["Alpha beta gamma. Delta.", "Second one."] true false =
      Except.ok ([(0, ["Alpha", "Delta"]), (1, ["Second"])],
        [(0, some "Alpha beta gamma"), (1, some "Second one")]) :=
  ⟨rfl, rfl⟩

theorem roundQ_mono {x y : ℚ} (h : x ≤ y) : (round x : ℤ) ≤ round y := by
  rw [round_eq, round_eq]
  exact Int.floor_mono (by linarith)

theorem pyRound2_mono {x y : ℚ} (h : x ≤ y) : pyRound2 x ≤ pyRound2 y := by
  unfold pyRound2
  have h100 : x * 100 ≤ y * 100 := by nlinarith
  have hr := roundQ_mono h100
  have hcast : ((round (x * 100) : ℤ) : ℚ) ≤ ((round (y * 100) : ℤ) : ℚ) := by
    exact_mod_cast hr
  exact (div_le_div_iff_of_pos_right (show (0 : ℚ) < 100 by norm_num)).mpr hcast

theorem pyRound2_nonneg {x : ℚ} (h : 0 ≤ x) : 0 ≤ pyRound2 x := by
  unfold pyRound2
  apply div_nonneg _ (by norm_num)
  have hr : (round (0 : ℚ) : ℤ) ≤ round (x * 100) := roundQ_mono (by nlinarith)
  rw [round_zero] at hr
  exact_mod_cast hr

theorem pyRound2_int (n : ℤ) : pyRound2 ((n : ℚ)) = (n : ℚ) := by
  unfold pyRound2
  rw [show ((n : ℚ) * 100) = (((n * 100 : ℤ) : ℚ)) by push_cast; ring, round_intCast]
  push_cast
  field_simp

theorem rank_mem_decomp (sqrtQ : ℚ → ℚ) (encode : String → List ℚ) (summary : String)
    (papers : List PaperRec) (top_k : Nat) :
    ∀ r ∈ SemanticRanker.rank sqrtQ encode summary papers top_k,
      ∃ i, ∃ h : i < papers.length,
        r = setRelevance (papers.get ⟨i, h⟩)
          (pyRound2 (cosSim sqrtQ (encode summary)
            (encode (papers.get ⟨i, h⟩).summary) * 100)) := by
  intro r hr
  cases papers with
  | nil => simp [SemanticRanker.rank] at hr
  | cons p ps =>
    unfold SemanticRanker.rank at hr
    simp only [List.mem_map] at hr
    obtain ⟨is, his, hre⟩ := hr
    have h1 : is ∈ (simList sqrtQ encode summary (p :: ps)).mergeSort
        (fun a b => decide (b.2 ≤ a.2)) := List.mem_of_mem_take his
    have h2 : is ∈ simList sqrtQ encode summary (p :: ps) :=
      (List.mergeSort_perm (simList sqrtQ encode summary (p :: ps))
        (fun a b => decide (b.2 ≤ a.2))).mem_iff.mp h1
    unfold simList at h2
    simp only [List.mem_map] at h2
    obtain ⟨ie, hie, h3⟩ := h2
    obtain ⟨i, e⟩ := ie
    obtain ⟨hlen, hval⟩ := List.mem_enum hie
    have hi : i < (p :: ps).length := by simpa using hlen
    have he : e = encode ((p :: ps).get ⟨i, hi⟩).summary := by
      rw [hval, List.getElem_map]
      rfl
    have hgd : ((p :: ps).getD i ⟨"", "", "", [], "", none⟩) =
        (p :: ps).get ⟨i, hi⟩ := by
      rw [List.getD_eq_getElem _ _ hi]
      simp
    subst h3
    refine ⟨i, hi, ?_⟩
    rw [← hre]
    show setRelevance ((p :: ps).getD i ⟨"", "", "", [], "", none⟩)
        (pyRound2 (cosSim sqrtQ (encode summary) e * 100)) = _
    rw [hgd, ← he]

/-- C5: the Semantic Ranker returns at most `top_k` records (the pipelines call
it with the default 3); each returned record is an input record annotated with
`relevance = round(similarity * 100, 2)`; the output is sorted in descending
relevance order; and an empty input gives an empty output. -/
theorem c5_semantic_ranker (sqrtQ : ℚ → ℚ) (encode : String → List ℚ) (summary : String)
    (papers : List PaperRec) (top_k : Nat) :
    (SemanticRanker.rank sqrtQ encode summary papers top_k).length ≤ top_k ∧
    (∀ r ∈ SemanticRanker.rank sqrtQ encode summary papers top_k,
      ∃ p ∈ papers, r = setRelevance p
        (pyRound2 (cosSim sqrtQ (encode summary) (encode p.summary) * 100))) ∧
    (SemanticRanker.rank sqrtQ encode summary papers top_k).Pairwise
      (fun a b => b.relevance.getD 0 ≤ a.relevance.getD 0) ∧
    (papers = [] → SemanticRanker.rank sqrtQ encode summary papers top_k = []) := by
  refine ⟨?_, ?_, ?_, ?_⟩
  · cases papers with
    | nil => simp [SemanticRanker.rank]
    | cons p ps =>
      unfold SemanticRanker.rank
      rw [List.length_map, List.length_take]
      exact min_le_left _ _
  · intro r hr
    obtain ⟨i, hi, hre⟩ := rank_mem_decomp sqrtQ encode summary papers top_k r hr
    exact ⟨papers.get ⟨i, hi⟩, List.get_mem papers i hi, hre⟩
  · cases papers with
    | nil => simp [SemanticRanker.rank]
    | cons p ps =>
      unfold SemanticRanker.rank
      have hsorted : ((simList sqrtQ encode summary (p :: ps)).mergeSort
          (fun a b => decide (b.2 ≤ a.2))).Pairwise
          (fun a b => decide (b.2 ≤ a.2) = true) := by
        apply List.sorted_mergeSort
        · intro a b c h1 h2
          simp only [decide_eq_true_eq] at h1 h2 ⊢
          exact le_trans h2 h1
        · intro a b
          rcases le_total b.2 a.2 with h | h <;> simp [h]
      refine List.Pairwise.map _ ?_
        (List.Pairwise.sublist (List.take_sublist _ _) hsorted)
      intro a b hab
      simp only [decide_eq_true_eq] at hab
      show pyRound2 (b.2 * 100) ≤ pyRound2 (a.2 * 100)
      exact pyRound2_mono (mul_le_mul_of_nonneg_right hab (by norm_num))
  · intro h
    subst h
    rfl

/-- C5 witness: the ranker theorem applied at a concrete one-paper input (the
returned record is the input record annotated with relevance 100) and at the
empty input. -/
theorem c5_witness :
    (∃ p ∈ ([⟨"T", "L", "a", [], "2020", none⟩] : List PaperRec),
        (⟨"T", "L", "a", [], "2020", some (100 : ℚ)⟩ : PaperRec) =
          setRelevance p (pyRound2 (cosSim id [(1 : ℚ)] [(1 : ℚ)] * 100))) ∧
    SemanticRanker.rank id (fun _ => [(1 : ℚ)]) "s" [] 3 = [] := by
  have heval : SemanticRanker.rank id (fun _ => [(1 : ℚ)]) "s"
      [⟨"T", "L", "a", [], "2020", none⟩] 3 =
      [⟨"T", "L", "a", [], "2020", some (100 : ℚ)⟩] := by
    unfold SemanticRanker.rank simList
    simp [List.mergeSort, cosSim, dotQ, sumSq, setRelevance]
    rw [show (100 : ℚ) = (((100 : ℤ) : ℚ)) by norm_num, pyRound2_int]
  constructor
  · exact (c5_semantic_ranker id (fun _ => [(1 : ℚ)]) "s"
      [⟨"T", "L", "a", [], "2020", none⟩] 3).2.1
      ⟨"T", "L", "a", [], "2020", some (100 : ℚ)⟩
      (by rw [heval]; exact List.mem_singleton_self _)
  · exact (c5_semantic_ranker id (fun _ => [(1 : ℚ)]) "s" [] 3).2.2.2 rfl

/-- C6: the claim that every attached relevance score is non-negative for all
embedding vectors is refuted: with a summary embedding `[1]` and an abstract
embedding `[-1]` the cosine similarity is `-1` and the annotated relevance is
`round(-1 * 100, 2) = -100 < 0`. -/
theorem c6_counterexample :
    SemanticRanker.rank id (fun s => if s = "q" then [(1 : ℚ)] else [(-1 : ℚ)]) "q"
      [⟨"T", "L", "a", [], "2020", none⟩] 3 =
      [⟨"T", "L", "a", [], "2020", some (-100 : ℚ)⟩] ∧
    ((-100 : ℚ) < 0) := by
  constructor
  · unfold SemanticRanker.rank simList
    simp [List.mergeSort, cosSim, dotQ, sumSq, setRelevance]
    rw [show (-100 : ℚ) = (((-100 : ℤ) : ℚ)) by norm_num, pyRound2_int]
  · norm_num

/-- C6 (amended): the Semantic Ranker's attached relevance scores are
non-negative whenever the embeddings are such that every dot product between
the summary vector and an abstract vector is non-negative (the square root
being non-negative, as a real square root is); in general the sign of
`round(similarity * 100, 2)` follows the sign of the dot product, and negative
cosine similarity yields a negative relevance. -/
theorem c6_relevance_nonneg (sqrtQ : ℚ → ℚ) (encode : String → List ℚ)
    (summary : String) (papers : List PaperRec) (top_k : Nat)
    (hsq : ∀ q, 0 ≤ sqrtQ q)
    (hdot : ∀ p ∈ papers, 0 ≤ dotQ (encode summary) (encode p.summary)) :
    ∀ r ∈ SemanticRanker.rank sqrtQ encode summary papers top_k,
      0 ≤ r.relevance.getD 0 := by
  intro r hr
  obtain ⟨i, hi, hre⟩ := rank_mem_decomp sqrtQ encode summary papers top_k r hr
  rw [hre]
  show (0 : ℚ) ≤ pyRound2 (cosSim sqrtQ (encode summary)
    (encode (papers.get ⟨i, hi⟩).summary) * 100)
  apply pyRound2_nonneg
  apply mul_nonneg _ (by norm_num)
  unfold cosSim
  exact div_nonneg (hdot _ (List.get_mem papers i hi)) (mul_nonneg (hsq _) (hsq _))

/-- C6 witness: the non-negativity theorem at a concrete input with
non-negative embeddings and `sqrtQ = abs`. -/
theorem c6_witness :
    0 ≤ ((⟨"T", "L", "a", [], "2020", some (100 : ℚ)⟩ : PaperRec)).relevance.getD 0 := by
  have heval : SemanticRanker.rank (fun q => |q|) (fun _ => [(1 : ℚ)]) "s"
      [⟨"T", "L", "a", [], "2020", none⟩] 3 =
      [⟨"T", "L", "a", [], "2020", some (100 : ℚ)⟩] := by
    unfold SemanticRanker.rank simList
    simp [List.mergeSort, cosSim, dotQ, sumSq, setRelevance]
    rw [show (100 : ℚ) = (((100 : ℤ) : ℚ)) by norm_num, pyRound2_int]
  exact c6_relevance_nonneg (fun q => |q|) (fun _ => [(1 : ℚ)]) "s"
    [⟨"T", "L", "a", [], "2020", none⟩] 3 (fun q => abs_nonneg q)
    (fun p _ => by norm_num [dotQ])
    ⟨"T", "L", "a", [], "2020", some (100 : ℚ)⟩
    (by rw [heval]; exact List.mem_singleton_self _)

theorem getKey_setKey_self : ∀ (d : Dict) (k : String) (v : Val),
    getKey (setKey d k v) k = some v := by
  intro d k v
  induction d with
  | nil => simp [setKey, getKey]
  | cons kv d ih =>
    by_cases hk : kv.1 = k
    · simp [setKey, hk, getKey]
    · simp [setKey, hk, getKey, ih]

theorem getKey_setKey_ne : ∀ (d : Dict) (k k' : String) (v : Val), k' ≠ k →
    getKey (setKey d k v) k' = getKey d k' := by
  intro d k k' v hne
  have hkk : ¬ k = k' := fun hq => hne hq.symm
  induction d with
  | nil => simp [setKey, getKey, hkk]
  | cons kv d ih =>
    by_cases hk : kv.1 = k
    · have hkv : ¬ kv.1 = k' := by rw [hk]; exact hkk
      simp [setKey, hk, getKey, hkk, hkv]
    · simp [setKey, hk, getKey, ih]

theorem getD_append_left {α : Type} (l t : List α) (d : α) (i : Nat) (h : i < l.length) :
    (l ++ t).getD i d = l.getD i d := by
  rw [List.getD_eq_getElem _ _ (by simp; omega), List.getD_eq_getElem _ _ h]
  exact List.getElem_append_left h

theorem getD_append_self {α : Type} (l : List α) (x : α) (d : α) :
    (l ++ [x]).getD l.length d = x := by
  rw [List.getD_eq_getElem _ _ (by simp)]
  exact List.getElem_concat_length l x l.length rfl _

theorem rankLoopH_spec (addrs : List Nat) (heap0 : List Dict)
    (haddr : ∀ a ∈ addrs, a < heap0.length) :
    ∀ (l : List (Nat × ℚ)), (∀ is ∈ l, is.1 < addrs.length) →
    ∀ (h : List Dict), heap0.length ≤ h.length →
      (∀ i, i < heap0.length → h.getD i [] = heap0.getD i []) →
      (∀ i, i < h.length → (rankLoopH addrs l h).1.getD i [] = h.getD i []) ∧
      h.length ≤ (rankLoopH addrs l h).1.length ∧
      (∀ r ∈ (rankLoopH addrs l h).2, h.length ≤ r ∧ ∃ a ∈ addrs, ∃ v : ℚ,
        (rankLoopH addrs l h).1.getD r [] =
          setKey (heap0.getD a []) "relevance" (Val.q v)) := by
  intro l
  induction l with
  | nil =>
    intro _ h hlen hpre
    exact ⟨fun i _ => rfl, le_refl _, fun r hr => absurd hr (List.not_mem_nil r)⟩
  | cons is rest ih =>
    intro hidx h hlen hpre
    have hidx1 : is.1 < addrs.length := hidx is (by simp)
    have haddrmem : addrs.getD is.1 0 ∈ addrs := by
      rw [List.getD_eq_getElem _ _ hidx1]
      exact List.getElem_mem hidx1
    have haddrlt : addrs.getD is.1 0 < heap0.length := haddr _ haddrmem
    have hcell : h.getD (addrs.getD is.1 0) [] = heap0.getD (addrs.getD is.1 0) [] :=
      hpre _ haddrlt
    set newCell := setKey (h.getD (addrs.getD is.1 0) []) "relevance"
      (Val.q (pyRound2 (is.2 * 100))) with hnc
    have hlen' : heap0.length ≤ (h ++ [newCell]).length := by
      simp
      omega
    have hpre' : ∀ i, i < heap0.length → (h ++ [newCell]).getD i [] = heap0.getD i [] := by
      intro i hi
      rw [getD_append_left _ _ _ _ (lt_of_lt_of_le hi hlen)]
      exact hpre i hi
    have hidx' : ∀ js ∈ rest, js.1 < addrs.length := fun js hjs => hidx js (by simp [hjs])
    obtain ⟨ihf, ihlen, ihout⟩ := ih hidx' (h ++ [newCell]) hlen' hpre'
    have hunfold : rankLoopH addrs (is :: rest) h =
        ((rankLoopH addrs rest (h ++ [newCell])).1,
          h.length :: (rankLoopH addrs rest (h ++ [newCell])).2) := rfl
    rw [hunfold]
    refine ⟨?_, ?_, ?_⟩
    · intro i hi
      rw [ihf i (by simp; omega)]
      exact getD_append_left _ _ _ _ hi
    · have : h.length ≤ (h ++ [newCell]).length := by simp
      exact le_trans this ihlen
    · intro r hr
      rcases List.mem_cons.mp hr with hr2 | hr2
    
      · subst hr2
        refine ⟨le_refl _, addrs.getD is.1 0, haddrmem, pyRound2 (is.2 * 100), ?_⟩
        rw [ihf h.length (by simp)]
        rw [getD_append_self]
        rw [hnc, hcell]
      · obtain ⟨hge, a, ha, v, hv⟩ := ihout r hr2
        refine ⟨le_trans (by simp) hge, a, ha, v, hv⟩

/-- C10: `SemanticRanker.rank` never mutates its arguments: on the explicit
heap, every input cell is unchanged after a successful call (in particular the
`papers` list and every dict inside it), and every returned record is a fresh
cell (address at or past the old heap top) equal to a copy of an addressed
input dict with only its "relevance" key set — it carries the inserted
relevance value and agrees with the input dict on every other key. -/
theorem c10_rank_no_mutation (sqrtQ : ℚ → ℚ) (encode : Val → List ℚ) (summaryV : Val)
    (heap : List Dict) (paperAddrs : List Nat) (top_k : Nat)
    (haddr : ∀ a ∈ paperAddrs, a < heap.length)
    (hout : List Dict) (outs : List Nat)
    (h : rankH sqrtQ encode summaryV heap paperAddrs top_k = Except.ok (hout, outs)) :
    (∀ i, i < heap.length → hout.getD i [] = heap.getD i []) ∧
    (∀ r ∈ outs, heap.length ≤ r ∧ ∃ a ∈ paperAddrs, ∃ v : ℚ,
      hout.getD r [] = setKey (heap.getD a []) "relevance" (Val.q v) ∧
      getKey (hout.getD r []) "relevance" = some (Val.q v) ∧
      ∀ k, k ≠ "relevance" → getKey (hout.getD r []) k = getKey (heap.getD a []) k) := by
  cases paperAddrs with
  | nil =>
    unfold rankH at h
    simp only [Except.ok.injEq, Prod.mk.injEq] at h
    obtain ⟨h1, h2⟩ := h
    subst h1
    subst h2
    exact ⟨fun i _ => rfl, fun r hr => absurd hr (List.not_mem_nil r)⟩
  | cons a0 rest =>
    unfold rankH at h
    cases hm : (a0 :: rest).mapM (fun a =>
        match getKey (heap.getD a []) "summary" with
        | some v => Except.ok v
        | none => Except.error PyErr.keyError) with
    | error e =>
      rw [hm] at h
      simp at h
    | ok summaries =>
      rw [hm] at h
      simp only [Except.ok.injEq] at h
      have hsl : summaries.length = (a0 :: rest).length := mapM_ok_length _ _ _ hm
      have hidx : ∀ is ∈ (((summaries.map encode).enum.map
          (fun ie => (ie.1, cosSim sqrtQ (encode summaryV) ie.2))).mergeSort
            (fun a b => decide (b.2 ≤ a.2))).take top_k,
          is.1 < (a0 :: rest).length := by
        intro is his
        have h1 := List.mem_of_mem_take his
        have h2 := (List.mergeSort_perm _ _).mem_iff.mp h1
        simp only [List.mem_map] at h2
        obtain ⟨ie, hie, h3⟩ := h2
        obtain ⟨i, e⟩ := ie
        obtain ⟨hlen, -⟩ := List.mem_enum hie
        subst h3
        simpa [hsl] using hlen
      obtain ⟨f1, f2, f3⟩ := rankLoopH_spec (a0 :: rest) heap haddr _ hidx heap
        (le_refl _) (fun i _ => rfl)
      have hfst : (rankLoopH (a0 :: rest)
          ((((summaries.map encode).enum.map
            (fun ie => (ie.1, cosSim sqrtQ (encode summaryV) ie.2))).mergeSort
              (fun a b => decide (b.2 ≤ a.2))).take top_k) heap).1 = hout := by
        rw [h]
      have hsnd : (rankLoopH (a0 :: rest)
          ((((summaries.map encode).enum.map
            (fun ie => (ie.1, cosSim sqrtQ (encode summaryV) ie.2))).mergeSort
              (fun a b => decide (b.2 ≤ a.2))).take top_k) heap).2 = outs := by
        rw [h]
      constructor
      · intro i hi
        rw [← hfst]
        exact f1 i hi
      · intro r hr
        rw [← hsnd] at hr
        obtain ⟨hge, a, ha, v, hv⟩ := f3 r hr
        rw [hfst] at hv
        refine ⟨hge, a, ha, v, hv, ?_, ?_⟩
        · rw [hv]
          exact getKey_setKey_self _ _ _
        · intro k hk
          rw [hv]
          exact getKey_setKey_ne _ _ _ _ hk

/-- C10 witness: the frame theorem at a concrete heap with one paper dict —
after the call the input cell is untouched and the returned fresh cell agrees
with it except at "relevance". -/
theorem c10_witness :
    (([[("summary", Val.s "x")],
        [("summary", Val.s "x"), ("relevance", Val.q 100)]] : List Dict).getD 0 [] =
      ([[("summary", Val.s "x")]] : List Dict).getD 0 []) ∧
    (1 ∈ ([1] : List Nat) → (1 : Nat) ≤ 1) := by
  have heval : rankH id (fun _ => [(1 : ℚ)]) (Val.s "q")
      [[("summary", Val.s "x")]] [0] 3 =
      Except.ok ([[("summary", Val.s "x")],
        [("summary", Val.s "x"), ("relevance", Val.q 100)]], [1]) := by
    unfold rankH
    have hmap : ([0] : List Nat).mapM (fun a =>
        match getKey (([[("summary", Val.s "x")]] : List Dict).getD a []) "summary" with
        | some v => Except.ok v
        | none => Except.error PyErr.keyError) = Except.ok [Val.s "x"] := rfl
    rw [hmap]
    simp [List.mergeSort, cosSim, dotQ, sumSq, rankLoopH, setKey]
    rw [show (100 : ℚ) = (((100 : ℤ) : ℚ)) by norm_num, pyRound2_int]
  have hmain := c10_rank_no_mutation id (fun _ => [(1 : ℚ)]) (Val.s "q")
    [[("summary", Val.s "x")]] [0] 3
    (by intro a ha; simp at ha; subst ha; simp)
    [[("summary", Val.s "x")], [("summary", Val.s "x"), ("relevance", Val.q 100)]]
    [1] heval
  exact ⟨hmain.1 0 (by simp), fun hm => (hmain.2 1 hm).1⟩

theorem v5_process_spec (resp : Option RankResp) (search : String → List PaperRec)
    (sqrtQ : ℚ → ℚ) (encode : String → List ℚ) (style accessed : String)
    (top_k : Nat) (kws : List String) (sm : Option String) (para : String)
    (e : V5Entry)
    (h : v5_process resp search sqrtQ encode style accessed top_k kws sm para =
      Except.ok e) :
    e.paragraph = para ∧
    ∃ s, v5_summary_str sm = Except.ok s ∧
      (search (build_arxiv_query (LLMClient.rank_keywords resp kws) s 5) = [] →
        e.papers = []) := by
  unfold v5_process at h
  split at h
  next er heq => simp at h
  next s heq =>
    split at h
    next er2 heq2 => simp at h
    next rows heq2 =>
      simp only [Except.ok.injEq] at h
      subst h
      refine ⟨rfl, s, heq, ?_⟩
      intro hemp
      rw [hemp] at heq2
      rw [show SemanticRanker.rank sqrtQ encode s [] top_k = [] from rfl] at heq2
      simp only [List.mapM_nil] at heq2
      have h0 : ([] : List V5Paper) = rows := by
        simpa [Pure.pure, Except.pure] using heq2
      show rows = []
      rw [← h0]

theorem v5_loop_spec (respR : Nat → Option RankResp) (search : String → List PaperRec)
    (sqrtQ : ℚ → ℚ) (encode : String → List ℚ) (style accessed : String) (top_k : Nat)
    (kwd : List (Nat × List String)) (smd : List (Nat × Option String)) :
    ∀ (paras : List String) (idx : Nat) (results : List V5Entry),
      v5_loop respR search sqrtQ encode style accessed top_k kwd smd idx paras =
        Except.ok results →
      results.length = paras.length ∧
      ∀ i, ∀ hi : i < results.length,
        (results.get ⟨i, hi⟩).paragraph = paras.getD i "" ∧
        ∃ kws sm s, dlookup kwd (idx + i) = some kws ∧
          dlookup smd (idx + i) = some sm ∧
          v5_summary_str sm = Except.ok s ∧
          (search (build_arxiv_query
              (LLMClient.rank_keywords (respR (idx + i)) kws) s 5) = [] →
            (results.get ⟨i, hi⟩).papers = []) := by
  intro paras
  induction paras with
  | nil =>
    intro idx results h
    unfold v5_loop at h
    simp only [Except.ok.injEq] at h
    subst h
    exact ⟨rfl, fun i hi => absurd hi (by simp)⟩
  | cons para rest ih =>
    intro idx results h
    unfold v5_loop at h
    split at h
    next heq => simp at h
    next kws heq =>
      split at h
      next heq2 => simp at h
      next sm heq2 =>
        split at h
        next er heq3 => simp at h
        next e heq3 =>
          split at h
          next er heq4 => simp at h
          next es heq4 =>
            simp only [Except.ok.injEq] at h
            subst h
            obtain ⟨hlen, hall⟩ := ih (idx + 1) es heq4
            obtain ⟨hep, s, hss, hemp⟩ := v5_process_spec (respR idx) search sqrtQ
              encode style accessed top_k kws sm para e heq3
            constructor
            · simp [hlen]
            · intro i hi
              cases i with
              | zero =>
                refine ⟨hep, kws, sm, s, by simpa using heq, by simpa using heq2, hss,
                  fun hse => hemp hse⟩
              | succ n =>
                have hadd : idx + (n + 1) = (idx + 1) + n := by omega
                rw [hadd]
                have hi2 : n < es.length := by simpa using hi
                exact hall n hi2

/-- C8: the ver5 pipeline orchestrator preserves paragraph order end-to-end:
on success the result list has exactly one entry per cleaned paragraph, entry
`i` carries cleaned paragraph `i`'s text, and a paragraph for which the paper
search returns zero results for its query still appears with its text intact
and an empty papers list.  (The Doc-Scraper webUI orchestrator instead
flattens one row per ranked paper and drops zero-result paragraphs — see the
counterexample.) -/
theorem c8_pipeline_order (seg : String → List String) (respE : Nat → Option ExtractResp)
    (respR : Nat → Option RankResp) (search : String → List PaperRec)
    (sqrtQ : ℚ → ℚ) (encode : String → List ℚ) (style accessed : String)
    (top_k : Nat) (paragraphs : List String) (results : List V5Entry)
    (h : pipeline_run_v5 seg respE respR search sqrtQ encode style accessed top_k
      paragraphs = Except.ok results) :
    results.length = (cleanedParas seg paragraphs).length ∧
    ∀ i, ∀ hi : i < results.length,
      (results.get ⟨i, hi⟩).paragraph = (cleanedParas seg paragraphs).getD i "" ∧
      ∃ kws sm s,
        dlookup (LLMClient.extract_keywords_and_summary respE 0
          (cleanedParas seg paragraphs)).1 i = some kws ∧
        dlookup (LLMClient.extract_keywords_and_summary respE 0
          (cleanedParas seg paragraphs)).2 i = some sm ∧
        v5_summary_str sm = Except.ok s ∧
        (search (build_arxiv_query (LLMClient.rank_keywords (respR i) kws) s 5) = [] →
          (results.get ⟨i, hi⟩).papers = []) := by
  unfold pipeline_run_v5 at h
  split at h
  next =>
    simp only [Except.ok.injEq] at h
    subst h
    refine ⟨by simp [cleanedParas], ?_⟩
    intro i hi
    simp at hi
  next p0 ps =>
    split at h
    next hc =>
      simp only [Except.ok.injEq] at h
      subst h
      refine ⟨by simp [hc], ?_⟩
      intro i hi
      simp at hi
    next c0 cs hc =>
      split at h
      next hcond => simp at h
      next hcond =>
        obtain ⟨hlen, hall⟩ := v5_loop_spec respR search sqrtQ encode style accessed
          top_k _ _ (cleanedParas seg (p0 :: ps)) 0 results h
        refine ⟨hlen, ?_⟩
        intro i hi
        have hi2 := hall i hi
        simp only [Nat.zero_add] at hi2
        exact hi2

unseal stripTags in
/-- C8: the Doc-Scraper webUI orchestrator violates the claim: a document with
one cleaned paragraph whose search returns zero results produces an empty
flattened result list — the paragraph has no entry at all. -/
theorem c8_counterexample :
    pipeline_run_ds (fun s => [s]) (fun _ => some ⟨some ["k"], some "s"⟩)
      (fun _ => none) (fun _ => []) id (fun _ => []) "d"
      ["one two three four five six seven eight nine ten"] =
      Except.ok ([] : List DSEntry) ∧
    ([] : List DSEntry).length ≠
      (cleanedParas (fun s => [s])
        ["one two three four five six seven eight nine ten"]).length := by
  constructor
  · rfl
  · decide

unseal stripTags in
/-- C8 witness: the order-preservation theorem applied to a concrete
one-paragraph run whose search returns nothing — the single entry carries the
cleaned paragraph's text and an empty papers list. -/
theorem c8_witness :
    ([⟨"one two three four five six seven eight nine ten", []⟩] : List V5Entry).length =
      (cleanedParas (fun s => [s])
        ["one two three four five six seven eight nine ten"]).length ∧
    (([⟨"one two three four five six seven eight nine ten", []⟩] : List V5Entry).get
        ⟨0, by decide⟩).paragraph =
      (cleanedParas (fun s => [s])
        ["one two three four five six seven eight nine ten"]).getD 0 "" := by
  have h := c8_pipeline_order (fun s => [s]) (fun _ => some ⟨some ["k"], some "s"⟩)
    (fun _ => none) (fun _ => []) id (fun _ => []) "harvard" "d" 3
    ["one two three four five six seven eight nine ten"]
    [⟨"one two three four five six seven eight nine ten", []⟩] rfl
  exact ⟨h.1, (h.2 0 (by decide)).1⟩
